import Mathlib

/-!
Verification of the HackEdu-Back PDF-to-LLM analysis pipeline.

JavaScript strings are modelled as lists of UTF-16 code units
(`List Nat`, each entry `< 2^16`); `String.length`, `substring`,
`lastIndexOf` and regular-expression replacement all operate on code
units in JavaScript, and the embedding mirrors that.  All string
literals appearing in the source are BMP-only, so for them code unit =
code point and `uStr` below is exact.
-/

namespace HackEdu

/-- UTF-16 code units of a (BMP-only) string literal. -/
def uStr (s : String) : List Nat := s.toList.map Char.toNat

/-- JavaScript's `\s` character class (also the set removed by
`String.prototype.trim`): ASCII whitespace, NBSP, and the Unicode
space separators / line separators / BOM. -/
def isJsWs (c : Nat) : Bool :=
  c = 9 || c = 10 || c = 11 || c = 12 || c = 13 || c = 32 || c = 160 ||
  c = 0x1680 || (0x2000 ≤ c && c ≤ 0x200A) || c = 0x2028 || c = 0x2029 ||
  c = 0x202F || c = 0x205F || c = 0x3000 || c = 0xFEFF

/-- `text.replace(/\s+/g, ' ')`: each maximal nonempty run of `\s`
characters becomes a single space.  The Boolean state records whether
the previous character was part of a whitespace run (in which case the
single replacement space has already been emitted). -/
def collapseWsAux : Bool → List Nat → List Nat
  | _, [] => []
  | inWs, c :: rest =>
    if isJsWs c then
      (if inWs then [] else [32]) ++ collapseWsAux true rest
    else c :: collapseWsAux false rest

/-- First replacement of `PdfService.cleanText`: `.replace(/\s+/g, ' ')`. -/
def collapseWs (l : List Nat) : List Nat := collapseWsAux false l

/-- Index of the last occurrence of `c` in `l` (`none` = JS `-1`). -/
def lastIdxOf (c : Nat) : List Nat → Option Nat
  | [] => none
  | a :: rest =>
    match lastIdxOf c rest with
    | some j => some (j + 1)
    | none => if a = c then some 0 else none

/-- One fuel-indexed pass of `text.replace(/\n\s*\n/g, '\n\n')`.
A match at the current position is a `\n`, then (greedy `\s*` with
backtracking) the whitespace run up to and including its last `\n`;
the match is replaced by `\n\n` and scanning resumes after it.
Since every step consumes at least one unit, fuel `l.length` is enough. -/
def collapseNlAux : Nat → List Nat → List Nat
  | 0, l => l
  | _ + 1, [] => []
  | fuel + 1, c :: rest =>
    if c = 10 then
      match lastIdxOf 10 (rest.takeWhile isJsWs) with
      | some k => 10 :: 10 :: collapseNlAux fuel (rest.drop (k + 1))
      | none => 10 :: collapseNlAux fuel rest
    else c :: collapseNlAux fuel rest

/-- Second replacement of `PdfService.cleanText`:
`.replace(/\n\s*\n/g, '\n\n')`. -/
def collapseNl (l : List Nat) : List Nat := collapseNlAux l.length l

/-- `String.prototype.trim()`. -/
def jsTrim (l : List Nat) : List Nat :=
  ((l.dropWhile isJsWs).reverse.dropWhile isJsWs).reverse

/-- `PdfService.cleanText`: collapse whitespace runs, collapse
`\n\s*\n`, trim. -/
def cleanText (l : List Nat) : List Nat := jsTrim (collapseNl (collapseWs l))

/-- No two adjacent whitespace units (an invariant of `collapseWs`
output used in the idempotence proof). -/
def sepChain (l : List Nat) : Prop :=
  l.Chain' (fun a b => ¬(isJsWs a = true ∧ isJsWs b = true))

/-- The literal `'\n\n[... texto truncado ...]'` appended by
`PdfService.truncateText`. -/
def truncMarker : List Nat := [10, 10] ++ uStr "[... texto truncado ...]"

/-- `PdfService.truncateText`: identity when
`text.length <= maxTokens * 4`, otherwise the first `maxTokens * 4`
code units followed by the truncation marker. -/
def truncateText (l : List Nat) (maxTokens : Nat) : List Nat :=
  let maxChars := maxTokens * 4
  if l.length ≤ maxChars then l else l.take maxChars ++ truncMarker

/-- `str.lastIndexOf(c, pos)`: last index `≤ pos` holding `c`
(`none` = JS `-1`). -/
def jsLastIndexOf (c : Nat) (l : List Nat) (pos : Nat) : Option Nat :=
  lastIdxOf c (l.take (pos + 1))

/-- JS `Math.max` over the `-1`-as-`none` encoding. -/
def maxIdx : Option Nat → Option Nat → Option Nat
  | none, b => b
  | some a, none => some a
  | some a, some b => some (max a b)

/-- `text.substring(i, e)` for `i ≤ e` (clamped at the length). -/
def jsSubstring (l : List Nat) (i e : Nat) : List Nat := (l.take e).drop i

/-- The `endIndex` computed by one iteration of
`PdfService.splitTextIntoChunks` at cursor `i`: tentatively
`i + chunkSize`; when that is not at the end of the text, back up to
just past the larger of the last `'.'` and the last `'\n'` at or
before the tentative boundary, provided that break point lies
strictly after `i`. -/
def splitEndIndex (l : List Nat) (chunkSize i : Nat) : Nat :=
  if i + chunkSize < l.length then
    match maxIdx (jsLastIndexOf 46 l (i + chunkSize))
        (jsLastIndexOf 10 l (i + chunkSize)) with
    | some b => if i < b then b + 1 else i + chunkSize
    | none => i + chunkSize
  else i + chunkSize

/-- The loop of `PdfService.splitTextIntoChunks`, returning the raw
(untrimmed) substring pushed at each iteration.  `none` means the fuel
ran out before the cursor reached the end of the text — i.e. the
source loop would still be running (it diverges when `chunkSize = 0`).
Each iteration with `1 ≤ chunkSize` advances the cursor, so fuel
`l.length` suffices. -/
def splitSegsAux (l : List Nat) (chunkSize : Nat) :
    Nat → Nat → Option (List (List Nat))
  | 0, i => if i < l.length then none else some []
  | fuel + 1, i =>
    if i < l.length then
      match splitSegsAux l chunkSize fuel (splitEndIndex l chunkSize i) with
      | some rest => some (jsSubstring l i (splitEndIndex l chunkSize i) :: rest)
      | none => none
    else some []

/-- The raw (untrimmed) substrings `text.substring(currentIndex, endIndex)`
pushed by `PdfService.splitTextIntoChunks`, in order. -/
def splitSegs (l : List Nat) (chunkSize : Nat) : Option (List (List Nat)) :=
  splitSegsAux l chunkSize l.length 0

/-- `PdfService.splitTextIntoChunks` (the source trims each pushed
chunk, i.e. the chunk list is the raw segment list mapped through
`trim`). -/
def splitTextIntoChunks (l : List Nat) (chunkSize : Nat) :
    Option (List (List Nat)) :=
  (splitSegs l chunkSize).map (fun segs => segs.map jsTrim)

/-- `PdfService.estimateTokens`: `Math.ceil(text.length / 4)`. -/
def estimateTokens (l : List Nat) : Nat := (l.length + 3) / 4

/-- A UTF-16 surrogate code unit (either half of an astral pair). -/
def isSurrogate (c : Nat) : Bool := 0xD800 ≤ c && c ≤ 0xDFFF

/-- A UTF-16 high (leading) surrogate. -/
def isHighSurr (c : Nat) : Bool := 0xD800 ≤ c && c ≤ 0xDBFF

/-- A UTF-16 low (trailing) surrogate. -/
def isLowSurr (c : Nat) : Bool := 0xDC00 ≤ c && c ≤ 0xDFFF

/-- Whether a UTF-16 code-unit sequence consists of whole code points:
every high surrogate is immediately followed by a low surrogate, and no
low surrogate stands alone.  A prefix of a string ends on a code-point
boundary exactly when it is well formed in this sense. -/
def utf16WellFormed : List Nat → Bool
  | [] => true
  | [c] => !isHighSurr c && !isLowSurr c
  | c :: d :: rest =>
    (isHighSurr c && (isLowSurr d && utf16WellFormed rest)) ||
    (!isHighSurr c && (!isLowSurr c && utf16WellFormed (d :: rest)))

/-! ### S3PdfService: reference parsing, download validation -/

/-- The error taxonomy of the spec.  The source throws
`BadRequestException`s with distinct messages (and a plain `Error` for a
missing evaluation); each constructor names the spec's abstraction of
one of those throw sites. -/
inductive AppError where
  | notFoundError
  | payloadTooLargeError
  | invalidFormatError
  | invalidReferenceError
  | emptyBodyError
  | otherError
  deriving DecidableEq, Repr

/-- `'s3://'` (code units spelled out so the list structure is exposed
to symbolic proofs). -/
def s3Scheme : List Nat := [115, 51, 58, 47, 47]

/-- `'.s3.'`. -/
def dotS3Dot : List Nat := [46, 115, 51, 46]

/-- `'s3.'`. -/
def s3Dot : List Nat := [115, 51, 46]

/-- `'.amazonaws.com'`. -/
def amazonDot : List Nat := [46, 97, 109, 97, 122, 111, 110, 97, 119, 115, 46, 99, 111, 109]

/-- `'https://'`. -/
def httpsScheme : List Nat := [104, 116, 116, 112, 115, 58, 47, 47]

/-- `hostname.split('.s3.')[0]`: the prefix of `l` before the first
occurrence of `pat` (the whole of `l` when `pat` does not occur). -/
def takeBeforeInfix (pat : List Nat) : List Nat → List Nat
  | [] => []
  | c :: rest =>
    if pat.isPrefixOf (c :: rest) then [] else c :: takeBeforeInfix pat rest

/-- Whether `pat` occurs as a contiguous substring of `l`
(JS `String.prototype.includes`). -/
def jsIncludes (pat : List Nat) : List Nat → Bool
  | [] => pat.isPrefixOf []
  | c :: rest => pat.isPrefixOf (c :: rest) || jsIncludes pat rest

/-- The WHATWG `new URL(s)` constructor, modelled on the fragment of URL
space this service meets: an `https://` URL whose host is a nonempty
dot-separated domain name and whose path needs no normalisation (no
userinfo, port, query, fragment, backslash, percent-escape, `.` or `..`
segment, and a lowercase host).  On such URLs the constructor returns
exactly the `(hostname, pathname)` split computed here; `none` models
the constructor throwing. -/
def urlParse (s : List Nat) : Option (List Nat × List Nat) :=
  if httpsScheme.isPrefixOf s then
    match (s.drop 8).takeWhile (fun c => c != 47) with
    | [] => none
    | host => some (host, (s.drop 8).drop host.length)
  else none

/-- `S3PdfService.parseS3Url`: the three accepted reference formats.
`replace('s3://','')` removes the first occurrence, which for a string
starting with `s3://` is that prefix; `[bucket, ...keyParts] =
rest.split('/')`; the HTTPS branches are guarded by
`includes('.s3.')`/`includes('s3.')` plus `includes('.amazonaws.com')`.
The source's final `throw` and the catch-all wrapper both surface a
Bad-Request ("URL de S3 inválida"), abstracted as
`invalidReferenceError`. -/
def parseS3Url (s3Url : List Nat) : Except AppError (List Nat × List Nat) :=
  if s3Scheme.isPrefixOf s3Url then
    match (s3Url.drop 5).splitOn 47 with
    | [] => .error .invalidReferenceError
    | bucket :: keyParts => .ok (bucket, List.intercalate [47] keyParts)
  else if jsIncludes dotS3Dot s3Url && jsIncludes amazonDot s3Url then
    match urlParse s3Url with
    | none => .error .invalidReferenceError
    | some (host, path) => .ok (takeBeforeInfix dotS3Dot host, path.drop 1)
  else if jsIncludes s3Dot s3Url && jsIncludes amazonDot s3Url then
    match urlParse s3Url with
    | none => .error .invalidReferenceError
    | some (_, path) =>
      match (path.drop 1).splitOn 47 with
      | [] => .error .invalidReferenceError
      | bucket :: keyParts => .ok (bucket, List.intercalate [47] keyParts)
  else .error .invalidReferenceError

/-- `10 * 1024 * 1024` bytes: the `MAX_FILE_SIZE` ceiling. -/
def MAX_FILE_SIZE : Nat := 10 * 1024 * 1024

/-- The 5 magic bytes `'%PDF-'`. -/
def pdfSignature : List Nat := [37, 80, 68, 70, 45]

/-- `S3PdfService.isPDF`: the first 5 bytes equal `'%PDF-'`. -/
def isPDF (buffer : List Nat) : Bool := buffer.take 5 = pdfSignature

/-- What the S3 `GetObject` call yields for a given bucket/key, as seen
by `downloadFromS3`: a missing key or bucket (named AWS errors), any
other transport error, an absent body, or the streamed bytes. -/
inductive S3FetchResult where
  | noSuchKey
  | noSuchBucket
  | otherFailure
  | emptyBody
  | body (bytes : List Nat)

/-- `S3PdfService.downloadFromS3` after the `GetObject` call resolved to
`fetch`: map the named AWS errors to not-found, reject an absent body,
then validate size (strictly more than 10 MiB rejected) and the PDF
magic bytes, in that order. -/
def downloadFromS3 : S3FetchResult → Except AppError (List Nat)
  | .noSuchKey => .error .notFoundError
  | .noSuchBucket => .error .notFoundError
  | .otherFailure => .error .otherError
  | .emptyBody => .error .emptyBodyError
  | .body bytes =>
    if MAX_FILE_SIZE < bytes.length then .error .payloadTooLargeError
    else if isPDF bytes then .ok bytes
    else .error .invalidFormatError

/-- A valid PDF of exactly 10 MiB: the magic bytes padded with `'0'`. -/
def tenMiBPdf : List Nat := pdfSignature ++ List.replicate (MAX_FILE_SIZE - 5) 48

/-- 10 MiB + 1 byte of `'%'`. -/
def tenMiBPlusOne : List Nat := List.replicate (MAX_FILE_SIZE + 1) 37

/-- The characters on which the WHATWG URL constructor is transparent
in host and path position (no percent-encoding, case change or other
rewriting): ASCII alphanumerics, `'-'`, `'.'`, `'/'`, `'_'`.  Used only
to confine claim C8 to references on which `urlParse` models `new URL`
exactly. -/
def urlTameChar (c : Nat) : Bool :=
  (48 ≤ c && c ≤ 57) || (65 ≤ c && c ≤ 90) || (97 ≤ c && c ≤ 122) ||
  c = 45 || c = 46 || c = 47 || c = 95

/-! ### AnalysisService: data model, rubric context, orchestration

The Prisma rows `analyzeEvaluation` reads and writes, with only the
fields the service touches.  Identifiers are `Nat`; `maxScore` is
stored as a float in the schema but every value the service interpolates
in this repository is written as an integer, so the integral case is
modelled. -/

structure SubmissionRec where
  fileUrl : List Nat

structure GroupRec where
  id : Nat
  code : List Nat
  name : Option (List Nat)
  submissions : List SubmissionRec

structure RubricItemRec where
  itemOrder : Nat
  title : List Nat
  conditions : Option (List Nat)
  maxScore : Nat

structure RubricRec where
  id : Nat
  title : List Nat
  rubricPdfUrl : Option (List Nat)
  rubricItems : List RubricItemRec

/-- The evaluation as fetched by step 1 of `analyzeEvaluation`: rubrics
with their ordered items, groups each carrying at most their most
recent submission (`take: 1`, ordered by `uploadedAt desc`). -/
structure EvaluationRec where
  title : List Nat
  rubrics : List RubricRec
  groups : List GroupRec

inductive RubricStatus where
  | PASS
  | FAIL
  | PARTIAL
  deriving DecidableEq, Repr

inductive AchievementLevel where
  | SATISFACTORIO
  | BUENO
  | REGULAR
  | INSATISFACTORIO
  deriving DecidableEq, Repr

structure CriterionResult where
  criterionName : List Nat
  score : ℚ
  maxScore : ℚ
  level : AchievementLevel
  feedback : List Nat

/-- One entry of the `recommendations` array of the structured
response. -/
structure RecommendationItem where
  priority : Nat
  summary : List Nat
  details : List Nat

/-- The `RubricAnalysisSchema` Zod record: the structured response
`analyzeGroupWithOpenAI` validates. -/
structure RubricAnalysisResponse where
  groupName : List Nat
  groupCode : List Nat
  totalScore : ℚ
  maxScore : ℚ
  percentage : ℚ
  status : RubricStatus
  criteria : List CriterionResult
  generalFeedback : List Nat
  strengths : List (List Nat)
  improvements : List (List Nat)
  recommendations : List RecommendationItem

/-- An `Analysis` row: created with `endedAt` null, stamped at the end
of the run. -/
structure AnalysisRec where
  id : Nat
  engine : List Nat
  notes : List Nat
  endedAt : Option Nat

/-- An `AnalysisResult` row (note: the schema ties it to a rubric, not
to a group). -/
structure AnalysisResultRec where
  analysisId : Nat
  rubricId : Option Nat
  status : RubricStatus
  score : ℚ
  feedback : List Nat

/-- A `Recommendation` row, tied to the analysis and the group. -/
structure RecommendationRec where
  analysisId : Nat
  groupId : Nat
  priority : Nat
  summary : List Nat
  details : List Nat

/-- The persisted state the analysis run reads and writes. -/
structure DB where
  analyses : List AnalysisRec
  results : List AnalysisResultRec
  recommendations : List RecommendationRec

/-- The external collaborators of one `analyzeEvaluation(evaluationId)`
request: the Prisma evaluation lookup for that id, PDF text extraction
from a storage URL (`S3PdfService.extractTextFromS3Url`, which can
throw), the structured OpenAI call (`analyzeGroupWithOpenAI`'s provider
boundary: group code, group name, document text, rubric context,
evaluation title; it throws on provider/schema failure), the id Prisma
assigns to the created `Analysis` row, and the clock value used for
`endedAt`. -/
structure Env where
  findEvaluation : Option EvaluationRec
  extractTextFromS3Url : List Nat → Except Unit (List Nat)
  analyzeAI : List Nat → List Nat → List Nat → List Nat → List Nat →
    Except Unit RubricAnalysisResponse
  newAnalysisId : Nat
  now : Nat

/-- Decimal rendering of a number interpolated into a template string. -/
def renderNat (n : Nat) : List Nat := (Nat.toDigits 10 n).map Char.toNat

/-- One rubric item's lines in `prepareRubricContext`:
`**${itemOrder}. ${title}** (Puntaje máximo: ${maxScore})\n`, an
optional `   Condiciones: ${conditions}\n`, then a blank line. -/
def rubricItemContext (item : RubricItemRec) : List Nat :=
  uStr "**" ++ renderNat item.itemOrder ++ uStr ". " ++ item.title ++
  uStr "** (Puntaje máximo: " ++ renderNat item.maxScore ++ uStr ")\n" ++
  (match item.conditions with
   | some c => uStr "   Condiciones: " ++ c ++ uStr "\n"
   | none => []) ++ uStr "\n"

/-- The optional PDF-derived section of one rubric's context: fetched,
extracted and cleaned; on failure the section is omitted (logged), the
run proceeds. -/
def rubricPdfSection (env : Env) (r : RubricRec) : List Nat :=
  match r.rubricPdfUrl with
  | none => []
  | some url =>
    match env.extractTextFromS3Url url with
    | .ok t =>
      uStr "### Contenido de la rúbrica (desde PDF):\n" ++ cleanText t ++
      uStr "\n\n"
    | .error _ => []

/-- One rubric's block in `prepareRubricContext`. -/
def rubricContextOf (env : Env) (r : RubricRec) : List Nat :=
  uStr "## " ++ r.title ++ uStr "\n\n" ++ rubricPdfSection env r ++
  (if r.rubricItems.isEmpty then []
   else uStr "### Criterios de evaluación:\n\n" ++
     (r.rubricItems.map rubricItemContext).flatten) ++
  uStr "\n"

/-- `AnalysisService.prepareRubricContext`. -/
def prepareRubricContext (env : Env) (rubrics : List RubricRec) : List Nat :=
  uStr "# RÚBRICAS DE EVALUACIÓN\n\n" ++ (rubrics.map (rubricContextOf env)).flatten

/-- Unicode simple case folding restricted to the characters of the
pattern `Puntaje máximo:` (the regex carries the `i` flag). -/
def lowerUnit (c : Nat) : Nat :=
  if 65 ≤ c && c ≤ 90 then c + 32 else if c = 0xC1 then 0xE1 else c

/-- The case-folded literal part of the regex
`/Puntaje máximo:\s*([\d.]+)/gi`. -/
def maxScorePat : List Nat := uStr "puntaje máximo:"

/-- The `[\d.]` character class. -/
def isDigitDot (c : Nat) : Bool := (48 ≤ c && c ≤ 57) || c = 46

/-- All matches of `/Puntaje máximo:\s*([\d.]+)/gi` over the text, each
reduced (as `match.replace(/[^\d.]/g, '')` does) to its digits-and-dots
part.  At each position: the case-folded literal, then the greedy `\s*`
run, then at least one `[\d.]` character (`\s` and `[\d.]` are
disjoint, so backtracking never helps); on success scanning resumes
after the match, on failure at the next position.  Every step consumes
at least one unit, so fuel `length` suffices. -/
def scanMaxScoresAux : Nat → List Nat → List (List Nat)
  | 0, _ => []
  | _ + 1, [] => []
  | fuel + 1, c :: rest =>
    if maxScorePat.isPrefixOf (((c :: rest).take maxScorePat.length).map lowerUnit)
    then
      match (((c :: rest).drop maxScorePat.length).dropWhile isJsWs).takeWhile
          isDigitDot with
      | [] => scanMaxScoresAux fuel rest
      | d :: ds =>
        (d :: ds) ::
          scanMaxScoresAux fuel
            ((((c :: rest).drop maxScorePat.length).dropWhile isJsWs).drop
              (d :: ds).length)
    else scanMaxScoresAux fuel rest

/-- The matched numeric substrings of the rubric context. -/
def scanMaxScores (ctx : List Nat) : List (List Nat) :=
  scanMaxScoresAux ctx.length ctx

/-- Value of a digit string. -/
def digitsVal (ds : List Nat) : Nat := ds.foldl (fun a c => a * 10 + (c - 48)) 0

/-- `parseFloat` on a nonempty `[\d.]+` string: integer part, then at
most one fractional part (parsing stops at a second dot); a lone `'.'`
is `NaN`, modelled as `none`. -/
def jsParseFloat (s : List Nat) : Option ℚ :=
  match s.drop (s.takeWhile (fun c => 48 ≤ c && c ≤ 57)).length with
  | 46 :: rest2 =>
    if s.takeWhile (fun c => 48 ≤ c && c ≤ 57) = [] ∧
        rest2.takeWhile (fun c => 48 ≤ c && c ≤ 57) = [] then none
    else
      some ((digitsVal (s.takeWhile (fun c => 48 ≤ c && c ≤ 57)) : ℚ) +
        (digitsVal (rest2.takeWhile (fun c => 48 ≤ c && c ≤ 57)) : ℚ) /
          (10 ^ (rest2.takeWhile (fun c => 48 ≤ c && c ≤ 57)).length : ℚ))
  | _ =>
    if s.takeWhile (fun c => 48 ≤ c && c ≤ 57) = [] then none
    else some (digitsVal (s.takeWhile (fun c => 48 ≤ c && c ≤ 57)) : ℚ)

/-- `AnalysisService.calculateMaxScoreFromContext`: sum the parsed
values of all `Puntaje máximo:` matches (`NaN` contributes 0); default
20 when there is no match. -/
def calculateMaxScoreFromContext (ctx : List Nat) : ℚ :=
  if scanMaxScores ctx = [] then 20
  else ((scanMaxScores ctx).map (fun s => (jsParseFloat s).getD 0)).sum

/-- The consolidated feedback text `saveAnalysisResults` stores. -/
def resultFeedback (r : RubricAnalysisResponse) : List Nat :=
  r.generalFeedback ++ uStr "\n\n**Fortalezas:**\n" ++
  List.intercalate (uStr "\n") r.strengths ++
  uStr "\n\n**Áreas de mejora:**\n" ++
  List.intercalate (uStr "\n") r.improvements

/-- `AnalysisService.saveAnalysisResults`: one `AnalysisResult` row plus
one `Recommendation` row per recommendation item. -/
def saveAnalysisResults (analysisId groupId : Nat)
    (result : RubricAnalysisResponse) (rubricId : Option Nat) (db : DB) : DB :=
  { db with
    results := db.results ++
      [⟨analysisId, rubricId, result.status, result.totalScore,
        resultFeedback result⟩],
    recommendations := db.recommendations ++
      result.recommendations.map
        (fun r => ⟨analysisId, groupId, r.priority, r.summary, r.details⟩) }

/-- One group's analysis task (the body of the `map` in step 4 of
`analyzeEvaluation`): skip when there is no submission; otherwise
extract and clean the latest submission's text and invoke the model;
any thrown error is caught and the group is skipped; on success persist
via `saveAnalysisResults` (with the first rubric's id).  The returned
Boolean reports whether the group's results were saved. -/
def analyzeGroup (env : Env) (ev : EvaluationRec) (rubricContext : List Nat)
    (analysisId : Nat) (db : DB) (g : GroupRec) : DB × Bool :=
  match g.submissions with
  | [] => (db, false)
  | latest :: _ =>
    match env.extractTextFromS3Url latest.fileUrl with
    | .error _ => (db, false)
    | .ok pdfText =>
      match env.analyzeAI g.code (g.name.getD g.code) (cleanText pdfText)
          rubricContext ev.title with
      | .error _ => (db, false)
      | .ok result =>
        (saveAnalysisResults analysisId g.id result
          ((ev.rubrics.head?).map (fun r => r.id)) db, true)

/-- Whether a group's analysis attempt succeeds (it has a submission,
extraction succeeds, and the model call succeeds). -/
def groupAttemptOk (env : Env) (ev : EvaluationRec) (g : GroupRec) : Bool :=
  match g.submissions with
  | [] => false
  | latest :: _ =>
    match env.extractTextFromS3Url latest.fileUrl with
    | .error _ => false
    | .ok pdfText =>
      match env.analyzeAI g.code (g.name.getD g.code) (cleanText pdfText)
          (prepareRubricContext env ev.rubrics) ev.title with
      | .error _ => false
      | .ok _ => true

/-- Observable events of one run, in order: each group's task settling
(with whether its results were saved), and the final `endedAt` update.
The concurrent `Promise.all` fan-out is linearised in group order; this
is sound for the stated properties because the group tasks write
disjoint rows and the `endedAt` update is only issued after
`Promise.all` resolves. -/
inductive AnalysisEvent where
  | groupSettled (groupId : Nat) (saved : Bool)
  | analysisEnded
  deriving DecidableEq, Repr

/-- The `{success, analysisId, message}` object `analyzeEvaluation`
returns. -/
structure AnalyzeOutcome where
  analysisId : Nat
  message : List Nat
  deriving DecidableEq, Repr

/-- `'OPENAI'`. -/
def analysisEngine : List Nat := uStr "OPENAI"

/-- The notes stored on the created `Analysis` row. -/
def analysisNotes : List Nat := uStr "Análisis con GPT-4 y respuestas estructuradas"

/-- `'Análisis completado exitosamente'`. -/
def analysisDoneMessage : List Nat := uStr "Análisis completado exitosamente"

/-- The `Promise.all` over the groups' tasks, linearised: threads the
database through each group's task and records one settle event per
group, in order. -/
def runGroups (env : Env) (ev : EvaluationRec) (rubricContext : List Nat)
    (analysisId : Nat) : List GroupRec → DB → DB × List AnalysisEvent
  | [], db => (db, [])
  | g :: gs, db =>
    let step := analyzeGroup env ev rubricContext analysisId db g
    let rest := runGroups env ev rubricContext analysisId gs step.1
    (rest.1, .groupSettled g.id step.2 :: rest.2)

/-- `AnalysisService.analyzeEvaluation`: look the evaluation up (a
missing one throws before anything is written), create the `Analysis`
row, build the rubric context once, attempt every group, and only after
all group tasks settle stamp `endedAt` and return
`{analysisId, message}`.  Returns the outcome, the final database and
the event trace. -/
def analyzeEvaluation (env : Env) (db : DB) :
    Except AppError AnalyzeOutcome × DB × List AnalysisEvent :=
  match env.findEvaluation with
  | none => (.error .notFoundError, db, [])
  | some ev =>
    let db1 : DB := { db with analyses := db.analyses ++
      [⟨env.newAnalysisId, analysisEngine, analysisNotes, none⟩] }
    let run := runGroups env ev (prepareRubricContext env ev.rubrics)
      env.newAnalysisId ev.groups db1
    (.ok ⟨env.newAnalysisId, analysisDoneMessage⟩,
     { run.1 with
        analyses := run.1.analyses.map (fun a =>
          if a.id = env.newAnalysisId
          then { a with endedAt := some env.now } else a) },
     run.2 ++ [.analysisEnded])

/-- The conjunction of observable guarantees of one successful
`analyzeEvaluation` run: it returns `{analysisId, message}`; the
`Analysis` row ends with `endedAt` stamped; the trace settles every
group (in order) strictly before the `endedAt` update; the number of
stored `AnalysisResult` rows for this analysis equals the number of
groups whose attempt succeeded (skipped groups contribute none); and
every `Recommendation` row of this analysis belongs to a group whose
attempt succeeded. -/
def analyzeEvaluationCompletes (env : Env) (ev : EvaluationRec) (db : DB) : Prop :=
  (analyzeEvaluation env db).1 = .ok ⟨env.newAnalysisId, analysisDoneMessage⟩ ∧
  (∃ a ∈ (analyzeEvaluation env db).2.1.analyses,
    a.id = env.newAnalysisId ∧ a.endedAt = some env.now) ∧
  (analyzeEvaluation env db).2.2 =
    ev.groups.map (fun g => AnalysisEvent.groupSettled g.id (groupAttemptOk env ev g)) ++
      [AnalysisEvent.analysisEnded] ∧
  ((analyzeEvaluation env db).2.1.results.filter
      (fun r => r.analysisId == env.newAnalysisId)).length =
    (ev.groups.filter (groupAttemptOk env ev)).length ∧
  ∀ g ∈ ev.groups, groupAttemptOk env ev g = false →
    ∀ r ∈ (analyzeEvaluation env db).2.1.recommendations,
      r.analysisId = env.newAnalysisId → r.groupId ≠ g.id

/-! ### Concrete fixtures used by the claims' instances and witnesses -/

/-- A rubric with two items of max score 5 each (the spec's
scenario). -/
def rubricTwoFives : RubricRec :=
  ⟨1, uStr "Rúbrica", none,
   [⟨1, uStr "Claridad", some (uStr "Explicación clara"), 5⟩,
    ⟨2, uStr "Coherencia", none, 5⟩]⟩

/-- A rubric with no items and no source PDF: its context contains no
`Puntaje máximo:` occurrence. -/
def rubricNoItems : RubricRec := ⟨1, uStr "Rúbrica", none, []⟩

/-- An environment whose evaluation lookup finds nothing and whose
collaborators fail: exercises the error paths. -/
def envNoCollab : Env where
  findEvaluation := none
  extractTextFromS3Url := fun _ => .error ()
  analyzeAI := fun _ _ _ _ _ => .error ()
  newAnalysisId := 1
  now := 5

/-- An evaluation with one group that has no submission and one group
whose submission's text extraction will fail. -/
def evTwoGroups : EvaluationRec :=
  ⟨uStr "Examen", [rubricTwoFives],
   [⟨1, uStr "G001", some (uStr "Grupo A"), []⟩,
    ⟨2, uStr "G002", none, [⟨uStr "s3://bucket/doc.pdf"⟩]⟩]⟩

/-- An environment that finds `evTwoGroups` but whose extraction and
model collaborators throw: every group is skipped, the run still
completes. -/
def envWithEv : Env where
  findEvaluation := some evTwoGroups
  extractTextFromS3Url := fun _ => .error ()
  analyzeAI := fun _ _ _ _ _ => .error ()
  newAnalysisId := 1
  now := 5

/-- The empty database a fresh run starts from. -/
def emptyDB : DB := ⟨[], [], []⟩

/-! ## Helper lemmas -/

theorem dropWhile_head?_not (p : Nat → Bool) :
    ∀ (l : List Nat) (c : Nat), (l.dropWhile p).head? = some c → p c = false := by
  intro l
  induction l with
  | nil => intro c h; simp [List.dropWhile] at h
  | cons a t ih =>
    intro c h
    by_cases hp : p a = true
    · rw [List.dropWhile_cons_of_pos hp] at h
      exact ih c h
    · rw [List.dropWhile_cons_of_neg hp] at h
      simp only [List.head?_cons, Option.some.injEq] at h
      subst h
      simpa using hp

theorem dropWhile_eq_self_of_head? (p : Nat → Bool) (l : List Nat)
    (h : ∀ c, l.head? = some c → p c = false) : l.dropWhile p = l := by
  cases l with
  | nil => rfl
  | cons a t => simp [List.dropWhile_cons, h a rfl]

theorem dropWhile_dropWhile (p : Nat → Bool) (l : List Nat) :
    (l.dropWhile p).dropWhile p = l.dropWhile p :=
  dropWhile_eq_self_of_head? p _ (dropWhile_head?_not p l)

theorem jsTrim_subset (l : List Nat) : jsTrim l ⊆ l := by
  intro c hc
  unfold jsTrim at hc
  rw [List.mem_reverse] at hc
  have hc2 := (List.dropWhile_suffix isJsWs).subset hc
  rw [List.mem_reverse] at hc2
  exact (List.dropWhile_suffix isJsWs).subset hc2

theorem jsTrim_jsTrim (l : List Nat) : jsTrim (jsTrim l) = jsTrim l := by
  have hA : (jsTrim l).dropWhile isJsWs = jsTrim l := by
    apply dropWhile_eq_self_of_head?
    intro c hc
    unfold jsTrim at hc
    rw [List.head?_reverse] at hc
    obtain ⟨t, ht⟩ :
        (l.dropWhile isJsWs).reverse.dropWhile isJsWs <:+
          (l.dropWhile isJsWs).reverse := List.dropWhile_suffix isJsWs
    have hne : (l.dropWhile isJsWs).reverse.dropWhile isJsWs ≠ [] := by
      intro hnil
      rw [hnil] at hc
      simp at hc
    have h2 : (l.dropWhile isJsWs).reverse.getLast? = some c := by
      rw [← ht, List.getLast?_append_of_ne_nil _ hne]
      exact hc
    rw [List.getLast?_reverse] at h2
    exact dropWhile_head?_not isJsWs l c h2
  show ((((jsTrim l).dropWhile isJsWs).reverse.dropWhile isJsWs).reverse) = jsTrim l
  rw [hA]
  show (((l.dropWhile isJsWs).reverse.dropWhile isJsWs).reverse.reverse.dropWhile
    isJsWs).reverse = jsTrim l
  rw [List.reverse_reverse, dropWhile_dropWhile]
  rfl

/-! ## Claims C3 and C10: splitTextIntoChunks -/

theorem splitEndIndex_gt (l : List Nat) (cs i : Nat) (hcs : 1 ≤ cs)
    (hi : i < l.length) : i < splitEndIndex l cs i := by
  unfold splitEndIndex
  by_cases h : i + cs < l.length
  · simp only [if_pos h]
    cases hb : maxIdx (jsLastIndexOf 46 l (i + cs)) (jsLastIndexOf 10 l (i + cs)) with
    | none => show i < i + cs; omega
    | some b =>
      show i < if i < b then b + 1 else i + cs
      by_cases hib : i < b
      · simp only [if_pos hib]; omega
      · simp only [if_neg hib]; omega
  · simp only [if_neg h]; omega

theorem jsSubstring_append_drop (l : List Nat) (i e : Nat) (hie : i ≤ e) :
    jsSubstring l i e ++ l.drop e = l.drop i := by
  rcases le_or_lt i l.length with h | h
  · have hlen : i ≤ (l.take e).length := by
      simp only [List.length_take]
      omega
    have hsplit := congrArg (List.drop i) (List.take_append_drop e l)
    rw [List.drop_append_eq_append_drop] at hsplit
    have hz : i - (l.take e).length = 0 := by omega
    rw [hz, List.drop_zero] at hsplit
    exact hsplit
  · have h1 : l.drop i = [] := List.drop_eq_nil_of_le (by omega)
    have h2 : l.drop e = [] := List.drop_eq_nil_of_le (by omega)
    have h3 : jsSubstring l i e = [] := by
      unfold jsSubstring
      exact List.drop_eq_nil_of_le (by simp [List.length_take]; omega)
    rw [h1, h2, h3]
    rfl

theorem splitSegsAux_join (l : List Nat) (cs : Nat) (hcs : 1 ≤ cs) :
    ∀ (fuel i : Nat), l.length - i ≤ fuel →
      ∃ segs, splitSegsAux l cs fuel i = some segs ∧ segs.flatten = l.drop i := by
  intro fuel
  induction fuel with
  | zero =>
    intro i _hi
    have hnot : ¬ i < l.length := by omega
    refine ⟨[], ?_, ?_⟩
    · simp [splitSegsAux, hnot]
    · simp [List.drop_eq_nil_of_le (by omega : l.length ≤ i)]
  | succ fuel ih =>
    intro i hi
    by_cases hlt : i < l.length
    · have he := splitEndIndex_gt l cs i hcs hlt
      obtain ⟨rest, hrest, hjoin⟩ := ih (splitEndIndex l cs i) (by omega)
      refine ⟨jsSubstring l i (splitEndIndex l cs i) :: rest, ?_, ?_⟩
      · simp [splitSegsAux, hlt, hrest]
      · rw [List.flatten_cons, hjoin]
        exact jsSubstring_append_drop l i _ (by omega)
    · refine ⟨[], ?_, ?_⟩
      · simp [splitSegsAux, hlt]
      · simp [List.drop_eq_nil_of_le (by omega : l.length ≤ i)]

/-- C3 (amended).  For every input text and every `chunkSize ≥ 1`, the
raw segments cut by `splitTextIntoChunks` concatenate exactly to the
input (every code unit lands in exactly one segment, in order), the
returned chunks are precisely those segments with their boundary
whitespace trimmed, and the empty input yields zero chunks.  (The
original claim's "no produced chunk is the empty string" is false: a
segment consisting entirely of whitespace trims to the empty chunk, see
the counterexample.) -/
theorem splitTextIntoChunks_reconstructs (l : List Nat) (cs : Nat) (hcs : 1 ≤ cs) :
    ∃ segs, splitSegs l cs = some segs ∧ segs.flatten = l ∧
      splitTextIntoChunks l cs = some (segs.map jsTrim) ∧
      (l = [] → segs = []) := by
  obtain ⟨segs, hsegs, hjoin⟩ := splitSegsAux_join l cs hcs l.length 0 (by omega)
  refine ⟨segs, hsegs, by simpa using hjoin, ?_, ?_⟩
  · unfold splitTextIntoChunks
    rw [show splitSegs l cs = some segs from hsegs]
    rfl
  · intro hnil
    subst hnil
    have h0 : splitSegsAux ([] : List Nat) cs ([] : List Nat).length 0 = some [] := rfl
    rw [h0] at hsegs
    exact (Option.some_inj.mp hsegs).symm

/-- C3 witness: the reconstruction theorem applied at a concrete text
and chunk size. -/
theorem splitTextIntoChunks_reconstructs_witness :
    (1 : Nat) ≤ 3 ∧
    (∃ segs, splitSegs (uStr "ab. cd") 3 = some segs ∧ segs.flatten = uStr "ab. cd" ∧
      splitTextIntoChunks (uStr "ab. cd") 3 = some (segs.map jsTrim) ∧
      (uStr "ab. cd" = [] → segs = [])) :=
  ⟨by decide, splitTextIntoChunks_reconstructs (uStr "ab. cd") 3 (by decide)⟩

/-- C3 counterexample: the non-empty text `"a.  "` split with
`chunkSize = 2` produces the chunk list `["a.", ""]` — the trailing
all-whitespace segment is trimmed to the empty string, so a produced
chunk *is* empty although the input is non-empty. -/
theorem splitTextIntoChunks_empty_chunk :
    uStr "a.  " ≠ [] ∧
    splitTextIntoChunks (uStr "a.  ") 2 = some [uStr "a.", []] := by
  constructor
  · decide
  · decide

/-- C10.  For every input text and every `chunkSize ≥ 1` the split
loop terminates (the fuelled loop completes within `length` steps)
because each iteration strictly advances the cursor: the chosen end
index always exceeds the current index.  The advance argument indeed
fails for `chunkSize = 0`: on the text `"ab"` the loop never terminates
(no fuel suffices), because the tentative end index equals the cursor
and no break point lies beyond it. -/
theorem splitTextIntoChunks_terminates :
    (∀ (l : List Nat) (cs : Nat), 1 ≤ cs →
      (splitTextIntoChunks l cs).isSome = true) ∧
    (∀ (l : List Nat) (cs i : Nat), 1 ≤ cs → i < l.length →
      i < splitEndIndex l cs i) ∧
    (∀ fuel, splitSegsAux (uStr "ab") 0 fuel 0 = none) := by
  refine ⟨?_, splitEndIndex_gt, ?_⟩
  · intro l cs hcs
    obtain ⟨segs, hsegs, -⟩ := splitSegsAux_join l cs hcs l.length 0 (by omega)
    unfold splitTextIntoChunks splitSegs
    rw [show splitSegsAux l cs l.length 0 = some segs from hsegs]
    rfl
  · intro fuel
    induction fuel with
    | zero => decide
    | succ fuel ih =>
      have h0 : splitEndIndex (uStr "ab") 0 0 = 0 := by decide
      show (if 0 < (uStr "ab").length then
        match splitSegsAux (uStr "ab") 0 fuel (splitEndIndex (uStr "ab") 0 0) with
        | some rest =>
          some (jsSubstring (uStr "ab") 0 (splitEndIndex (uStr "ab") 0 0) :: rest)
        | none => none
        else some []) = none
      rw [h0, ih]
      rfl

/-- C10 witness: termination instantiated at a concrete text and chunk
size, and the strict advance at a concrete cursor. -/
theorem splitTextIntoChunks_terminates_witness :
    ((1 : Nat) ≤ 2 ∧ (splitTextIntoChunks (uStr "ab.c") 2).isSome = true) ∧
    ((1 : Nat) ≤ 2 ∧ 0 < (uStr "ab.c").length ∧ 0 < splitEndIndex (uStr "ab.c") 2 0) :=
  ⟨⟨by decide, splitTextIntoChunks_terminates.1 (uStr "ab.c") 2 (by decide)⟩,
   ⟨by decide, by decide,
    splitTextIntoChunks_terminates.2.1 (uStr "ab.c") 2 0 (by decide) (by decide)⟩⟩

/-! ## Claims C4 and C5: cleanText -/

theorem collapseWsAux_mem :
    ∀ (l : List Nat) (s : Bool) (c : Nat), c ∈ collapseWsAux s l →
      isJsWs c = true → c = 32 := by
  intro l
  induction l with
  | nil => intro s c hc; simp [collapseWsAux] at hc
  | cons a t ih =>
    intro s c hc hw
    by_cases ha : isJsWs a = true
    · simp only [collapseWsAux, if_pos ha, List.mem_append] at hc
      rcases hc with hc | hc
      · cases s with
        | true => simp at hc
        | false => simpa using hc
      · exact ih true c hc hw
    · simp only [collapseWsAux, if_neg ha, List.mem_cons] at hc
      rcases hc with hc | hc
      · subst hc; exact absurd hw ha
      · exact ih false c hc hw

theorem collapseWsAux_true_head :
    ∀ (l : List Nat) (c : Nat), (collapseWsAux true l).head? = some c →
      isJsWs c = false := by
  intro l
  induction l with
  | nil => intro c h; simp [collapseWsAux] at h
  | cons a t ih =>
    intro c h
    by_cases ha : isJsWs a = true
    · rw [show collapseWsAux true (a :: t) = collapseWsAux true t by
        simp [collapseWsAux, ha]] at h
      exact ih c h
    · rw [show collapseWsAux true (a :: t) = a :: collapseWsAux false t by
        simp [collapseWsAux, ha]] at h
      simp only [List.head?_cons, Option.some.injEq] at h
      subst h
      simpa using ha

theorem sepChain_reverse (l : List Nat) (h : sepChain l) : sepChain l.reverse := by
  rw [sepChain, List.chain'_reverse]
  exact h.imp (fun {a b} hab h2 => hab ⟨h2.2, h2.1⟩)

theorem sepChain_dropWhile (p : Nat → Bool) (l : List Nat) (h : sepChain l) :
    sepChain (l.dropWhile p) :=
  h.suffix (List.dropWhile_suffix p)

theorem sepChain_jsTrim (l : List Nat) (h : sepChain l) : sepChain (jsTrim l) :=
  sepChain_reverse _ (sepChain_dropWhile _ _ (sepChain_reverse _ (sepChain_dropWhile _ _ h)))

theorem collapseWsAux_chain : ∀ (l : List Nat) (s : Bool), sepChain (collapseWsAux s l) := by
  intro l
  induction l with
  | nil => intro s; simp [collapseWsAux, sepChain]
  | cons a t ih =>
    intro s
    by_cases ha : isJsWs a = true
    · cases s with
      | true =>
        rw [show collapseWsAux true (a :: t) = collapseWsAux true t by
          simp [collapseWsAux, ha]]
        exact ih true
      | false =>
        rw [show collapseWsAux false (a :: t) = 32 :: collapseWsAux true t by
          simp [collapseWsAux, ha]]
        refine List.chain'_cons'.mpr ⟨?_, ih true⟩
        intro b hb
        have := collapseWsAux_true_head t b hb
        simp [this]
    · rw [show collapseWsAux s (a :: t) = a :: collapseWsAux false t by
        simp [collapseWsAux, ha]]
      refine List.chain'_cons'.mpr ⟨?_, ih false⟩
      intro b _hb
      simp [ha]

theorem collapseWsAux_true_eq_false (l : List Nat)
    (h : ∀ c, l.head? = some c → isJsWs c = false) :
    collapseWsAux true l = collapseWsAux false l := by
  cases l with
  | nil => rfl
  | cons a t => simp [collapseWsAux, h a rfl]

theorem collapseWs_eq_self :
    ∀ l : List Nat, (∀ c ∈ l, isJsWs c = true → c = 32) → sepChain l →
      collapseWs l = l := by
  intro l
  induction l with
  | nil => intro _ _; rfl
  | cons a t ih =>
    intro hmem hch
    have hcht : sepChain t := (List.chain'_cons'.mp hch).2
    have hmemt : ∀ c ∈ t, isJsWs c = true → c = 32 :=
      fun c hc => hmem c (List.mem_cons_of_mem a hc)
    by_cases ha : isJsWs a = true
    · have ha32 : a = 32 := hmem a (List.mem_cons_self a t) ha
      have hhead : ∀ c, t.head? = some c → isJsWs c = false := by
        intro c hc
        have := (List.chain'_cons'.mp hch).1 c hc
        by_contra hcw
        exact this ⟨ha, by simpa using hcw⟩
      show collapseWsAux false (a :: t) = a :: t
      rw [show collapseWsAux false (a :: t) = 32 :: collapseWsAux true t by
        simp [collapseWsAux, ha]]
      rw [collapseWsAux_true_eq_false t hhead, ha32]
      exact congrArg _ (ih hmemt hcht)
    · show collapseWsAux false (a :: t) = a :: t
      rw [show collapseWsAux false (a :: t) = a :: collapseWsAux false t by
        simp [collapseWsAux, ha]]
      exact congrArg _ (ih hmemt hcht)

theorem ten_not_mem_collapseWs (l : List Nat) : (10 : Nat) ∉ collapseWs l := by
  intro h
  have := collapseWsAux_mem l false 10 h (by decide)
  omega

theorem collapseNlAux_eq_self :
    ∀ (fuel : Nat) (l : List Nat), (10 : Nat) ∉ l → collapseNlAux fuel l = l := by
  intro fuel
  induction fuel with
  | zero => intro l _; rfl
  | succ fuel ih =>
    intro l h10
    cases l with
    | nil => rfl
    | cons a t =>
      have ha : ¬ a = 10 := fun h => h10 (h ▸ List.mem_cons_self a t)
      rw [show collapseNlAux (fuel + 1) (a :: t) = a :: collapseNlAux fuel t by
        simp [collapseNlAux, ha]]
      exact congrArg _ (ih t (fun h => h10 (List.mem_cons_of_mem a h)))

theorem collapseNl_eq_self (l : List Nat) (h10 : (10 : Nat) ∉ l) :
    collapseNl l = l := collapseNlAux_eq_self l.length l h10

/-- C5.  `cleanText` is idempotent: for all text `T`,
`clean(clean(T)) = clean(T)`. -/
theorem cleanText_idempotent (l : List Nat) : cleanText (cleanText l) = cleanText l := by
  have h10 : (10 : Nat) ∉ collapseWs l := ten_not_mem_collapseWs l
  have h1 : cleanText l = jsTrim (collapseWs l) := by
    unfold cleanText
    rw [collapseNl_eq_self _ h10]
  have hymem : ∀ c ∈ jsTrim (collapseWs l), isJsWs c = true → c = 32 :=
    fun c hc => collapseWsAux_mem l false c (jsTrim_subset _ hc)
  have hych : sepChain (jsTrim (collapseWs l)) :=
    sepChain_jsTrim _ (collapseWsAux_chain l false)
  have hy10 : (10 : Nat) ∉ jsTrim (collapseWs l) :=
    fun h => h10 (jsTrim_subset _ h)
  calc cleanText (cleanText l) = cleanText (jsTrim (collapseWs l)) := by rw [h1]
    _ = jsTrim (collapseNl (collapseWs (jsTrim (collapseWs l)))) := rfl
    _ = jsTrim (collapseNl (jsTrim (collapseWs l))) := by
        rw [collapseWs_eq_self _ hymem hych]
    _ = jsTrim (jsTrim (collapseWs l)) := by rw [collapseNl_eq_self _ hy10]
    _ = jsTrim (collapseWs l) := jsTrim_jsTrim _
    _ = cleanText l := h1.symm

/-- C4 (the code's actual behaviour at the spec's failing input).  The
first replacement `\s+ -> ' '` already converts every newline to a
space, so the blank-line-collapsing second replacement is dead code:
`"a\n\n\nb"` cleans to `"a b"` — no blank line survives, contradicting
both the spec and the source's own comment ("Eliminar múltiples saltos
de línea", which replaces with `'\n\n'` intending to keep one blank
line). -/
theorem cleanText_drops_blank_lines :
    cleanText (uStr "a\n\n\nb") = uStr "a b" ∧
    (10 : Nat) ∉ cleanText (uStr "a\n\n\nb") := by
  constructor
  · decide
  · decide

/-! ## Claim C6: truncateText -/

theorem not_surrogate_parts (a : Nat) (ha : isSurrogate a = false) :
    isHighSurr a = false ∧ isLowSurr a = false := by
  simp only [isSurrogate, isHighSurr, isLowSurr] at *
  constructor <;> (simp at ha ⊢; omega)

theorem utf16WellFormed_of_no_surrogate :
    ∀ l : List Nat, (∀ c ∈ l, isSurrogate c = false) → utf16WellFormed l = true := by
  intro l
  induction l with
  | nil => intro _; rfl
  | cons a t ih =>
    intro h
    obtain ⟨h1, h2⟩ := not_surrogate_parts a (h a (List.mem_cons_self a t))
    have ht := ih (fun c hc => h c (List.mem_cons_of_mem a hc))
    cases t with
    | nil => simp [utf16WellFormed, h1, h2]
    | cons d rest => simp [utf16WellFormed, h1, h2, ht]

/-- C6 (amended).  `truncateText` operates on UTF-16 code units, not
code points: when the text exceeds the `maxTokens * 4` budget the
result is exactly the first `maxTokens * 4` code units followed by the
truncation marker, and whenever the text contains no surrogate units
(every code point in the BMP) the retained prefix therefore ends on a
code-point boundary.  (For text containing astral characters the cut
*can* fall inside a surrogate pair — see the counterexample — so the
original claim's unconditional code-point safety is false.) -/
theorem truncateText_boundary (l : List Nat) (maxTokens : Nat)
    (hbmp : ∀ c ∈ l, isSurrogate c = false) (hlong : maxTokens * 4 < l.length) :
    truncateText l maxTokens = l.take (maxTokens * 4) ++ truncMarker ∧
    utf16WellFormed (l.take (maxTokens * 4)) = true := by
  constructor
  · unfold truncateText
    simp only []
    rw [if_neg (by omega)]
  · exact utf16WellFormed_of_no_surrogate _
      (fun c hc => hbmp c (List.take_subset _ _ hc))

/-- C6 witness: the amended theorem applied to a concrete BMP-only
text that exceeds the budget. -/
theorem truncateText_boundary_witness :
    (∀ c ∈ [97, 98, 99, 100, 101], isSurrogate c = false) ∧ 1 * 4 < ([97, 98, 99, 100, 101] : List Nat).length ∧
    (truncateText [97, 98, 99, 100, 101] 1 = ([97, 98, 99, 100, 101] : List Nat).take (1 * 4) ++ truncMarker ∧
      utf16WellFormed (([97, 98, 99, 100, 101] : List Nat).take (1 * 4)) = true) :=
  ⟨by decide, by decide, truncateText_boundary [97, 98, 99, 100, 101] 1 (by decide) (by decide)⟩

/-- C6 counterexample: the well-formed text `"a😀😀"` (code units
`[97, D83D, DE00, D83D, DE00]`) truncated with `maxTokens = 1` is cut
after 4 code units, splitting the second astral character: the
retained prefix ends in the lone high surrogate `D83D` — not a
code-point boundary — and the marker follows it. -/
theorem truncateText_splits_surrogate_pair :
    utf16WellFormed [97, 0xD83D, 0xDE00, 0xD83D, 0xDE00] = true ∧
    truncateText [97, 0xD83D, 0xDE00, 0xD83D, 0xDE00] 1 =
      [97, 0xD83D, 0xDE00, 0xD83D] ++ truncMarker ∧
    utf16WellFormed (([97, 0xD83D, 0xDE00, 0xD83D, 0xDE00] : List Nat).take (1 * 4)) = false := by
  refine ⟨by decide, by decide, by decide⟩

/-! ## Claim C7: downloadFromS3 size and format validation -/

/-- C7.  A fetched document's bytes are returned only when the content
is at most 10 MiB with the first 5 bytes equal to `'%PDF-'`; content of
10 MiB + 1 byte is rejected with the payload-too-large error (the size
check runs first); content of exactly 10 MiB with valid magic bytes is
accepted; and content within the size limit whose first 5 bytes differ
from the marker is rejected with the invalid-format error. -/
theorem downloadFromS3_validates :
    (∀ b : List Nat, b.length = MAX_FILE_SIZE + 1 →
      downloadFromS3 (.body b) = .error .payloadTooLargeError) ∧
    (∀ b : List Nat, b.length = MAX_FILE_SIZE → isPDF b = true →
      downloadFromS3 (.body b) = .ok b) ∧
    (∀ b : List Nat, b.length ≤ MAX_FILE_SIZE → isPDF b = false →
      downloadFromS3 (.body b) = .error .invalidFormatError) ∧
    (∀ (f : S3FetchResult) (b : List Nat), downloadFromS3 f = .ok b →
      f = .body b ∧ b.length ≤ MAX_FILE_SIZE ∧ b.take 5 = pdfSignature) := by
  refine ⟨?_, ?_, ?_, ?_⟩
  · intro b hb
    show (if MAX_FILE_SIZE < b.length then
        (.error .payloadTooLargeError : Except AppError (List Nat))
      else if isPDF b then .ok b else .error .invalidFormatError) =
      .error .payloadTooLargeError
    rw [if_pos (by rw [hb]; omega)]
  · intro b hb hpdf
    show (if MAX_FILE_SIZE < b.length then
        (.error .payloadTooLargeError : Except AppError (List Nat))
      else if isPDF b then .ok b else .error .invalidFormatError) = .ok b
    rw [if_neg (by rw [hb]; omega), if_pos hpdf]
  · intro b hb hpdf
    show (if MAX_FILE_SIZE < b.length then
        (.error .payloadTooLargeError : Except AppError (List Nat))
      else if isPDF b then .ok b else .error .invalidFormatError) =
      .error .invalidFormatError
    rw [if_neg (by omega), if_neg (by simp [hpdf])]
  · intro f b hok
    cases f with
    | noSuchKey => exact absurd hok (by simp [downloadFromS3])
    | noSuchBucket => exact absurd hok (by simp [downloadFromS3])
    | otherFailure => exact absurd hok (by simp [downloadFromS3])
    | emptyBody => exact absurd hok (by simp [downloadFromS3])
    | body bytes =>
      replace hok :
          (if MAX_FILE_SIZE < bytes.length then
            (.error .payloadTooLargeError : Except AppError (List Nat))
          else if isPDF bytes then .ok bytes else .error .invalidFormatError) =
          .ok b := hok
      by_cases h1 : MAX_FILE_SIZE < bytes.length
      · rw [if_pos h1] at hok
        exact absurd hok (by simp)
      · rw [if_neg h1] at hok
        by_cases h2 : isPDF bytes = true
        · rw [if_pos h2] at hok
          have hb : bytes = b := by simpa using hok
          subst hb
          refine ⟨rfl, by omega, ?_⟩
          have h3 := h2
          unfold isPDF at h3
          simpa using h3
        · rw [if_neg (by simpa using h2)] at hok
          exact absurd hok (by simp)

/-- C7 witness: the validation theorem applied at a 10 MiB + 1 byte
document, an exactly-10 MiB valid PDF, and a short non-PDF. -/
theorem downloadFromS3_validates_witness :
    (tenMiBPlusOne.length = MAX_FILE_SIZE + 1 ∧
      downloadFromS3 (.body tenMiBPlusOne) = .error .payloadTooLargeError) ∧
    (tenMiBPdf.length = MAX_FILE_SIZE ∧ isPDF tenMiBPdf = true ∧
      downloadFromS3 (.body tenMiBPdf) = .ok tenMiBPdf) ∧
    ((uStr "GIF89a").length ≤ MAX_FILE_SIZE ∧ isPDF (uStr "GIF89a") = false ∧
      downloadFromS3 (.body (uStr "GIF89a")) = .error .invalidFormatError) :=
  have hlen : tenMiBPdf.length = MAX_FILE_SIZE := by
    show (pdfSignature ++ List.replicate (MAX_FILE_SIZE - 5) 48).length = MAX_FILE_SIZE
    rw [List.length_append, List.length_replicate]
    show 5 + (MAX_FILE_SIZE - 5) = MAX_FILE_SIZE
    simp [MAX_FILE_SIZE]
  ⟨⟨by simp [tenMiBPlusOne],
    downloadFromS3_validates.1 tenMiBPlusOne (by simp [tenMiBPlusOne])⟩,
   ⟨hlen, rfl, downloadFromS3_validates.2.1 tenMiBPdf hlen rfl⟩,
   ⟨by decide, by decide,
    downloadFromS3_validates.2.2.1 (uStr "GIF89a") (by decide) (by decide)⟩⟩

/-! ## Claim C8: parseS3Url on the three reference formats -/

theorem jsIncludes_of_isInfix (pat : List Nat) :
    ∀ l : List Nat, pat <:+: l → jsIncludes pat l = true := by
  intro l
  induction l with
  | nil =>
    intro h
    have hnil : pat = [] := List.infix_nil.mp h
    subst hnil
    rfl
  | cons a t ih =>
    intro h
    rcases List.infix_cons_iff.mp h with h | h
    · show (pat.isPrefixOf (a :: t) || jsIncludes pat t) = true
      rw [List.isPrefixOf_iff_prefix.mpr h]
      rfl
    · show (pat.isPrefixOf (a :: t) || jsIncludes pat t) = true
      rw [ih h]
      simp

theorem takeWhile_append_sep (p : Nat → Bool) :
    ∀ (a : List Nat) (s : Nat) (z : List Nat),
      (∀ c ∈ a, p c = true) → p s = false → (a ++ s :: z).takeWhile p = a := by
  intro a
  induction a with
  | nil => intro s z _ hs; simp [List.takeWhile_cons, hs]
  | cons x xs ih =>
    intro s z ha hs
    have hx : p x = true := ha x (List.mem_cons_self x xs)
    rw [List.cons_append, List.takeWhile_cons, if_pos hx,
      ih s z (fun c hc => ha c (List.mem_cons_of_mem x hc)) hs]

theorem isPrefixOf_append_of_le :
    ∀ (pat a z : List Nat), pat.length ≤ a.length →
      pat.isPrefixOf (a ++ z) = pat.isPrefixOf a := by
  intro pat
  induction pat with
  | nil => intro a z _; simp [List.isPrefixOf]
  | cons p ps ih =>
    intro a z h
    cases a with
    | nil => simp at h
    | cons x xs =>
      show (p == x && ps.isPrefixOf (xs ++ z)) = (p == x && ps.isPrefixOf xs)
      rw [ih xs z (by simpa using h)]

theorem takeBeforeInfix_eq (pat z : List Nat) :
    ∀ b : List Nat,
      (∀ i, i < b.length → pat.isPrefixOf ((b ++ (pat ++ z)).drop i) = false) →
      takeBeforeInfix pat (b ++ (pat ++ z)) = b := by
  intro b
  induction b with
  | nil =>
    intro _
    show takeBeforeInfix pat (pat ++ z) = []
    have hpre : pat.isPrefixOf (pat ++ z) = true :=
      List.isPrefixOf_iff_prefix.mpr (List.prefix_append pat z)
    cases hpz : pat ++ z with
    | nil => rfl
    | cons c r =>
      rw [takeBeforeInfix, if_pos (hpz ▸ hpre)]
  | cons x bs ih =>
    intro h
    have h0 : pat.isPrefixOf (x :: (bs ++ (pat ++ z))) = false := by
      have h0 := h 0 (by simp)
      simpa using h0
    show takeBeforeInfix pat (x :: (bs ++ (pat ++ z))) = x :: bs
    rw [takeBeforeInfix, if_neg (by simp [h0]), ih ?_]
    intro i hi
    have hs := h (i + 1) (by simpa using Nat.succ_lt_succ hi)
    simpa using hs


theorem parseS3Url_s3_format (b k : List Nat) (hbSlash : (47 : Nat) ∉ b) :
    parseS3Url (s3Scheme ++ b ++ [47] ++ k) = .ok (b, k) := by
  have hsplitK : (b ++ 47 :: k).splitOn 47 = b :: k.splitOn 47 := by
    show (b ++ 47 :: k).splitOnP (fun c => c == 47) = b :: k.splitOnP (fun c => c == 47)
    exact List.splitOnP_first (fun c => c == 47) b
      (fun x hx hbeq => hbSlash (by rwa [show x = 47 from by simpa using hbeq] at hx))
      47 (by simp) k
  have hpre : s3Scheme.isPrefixOf (s3Scheme ++ b ++ [47] ++ k) = true := by
    apply List.isPrefixOf_iff_prefix.mpr
    simp only [List.append_assoc]
    exact List.prefix_append _ _
  unfold parseS3Url
  rw [if_pos hpre]
  have hdrop : (s3Scheme ++ b ++ [47] ++ k).drop 5 = b ++ 47 :: k := by
    simp only [List.append_assoc, List.singleton_append]
    exact List.drop_left' rfl
  rw [hdrop, hsplitK]
  show Except.ok (b, List.intercalate [47] (k.splitOn 47)) =
    Except.ok ((b, k) : List Nat × List Nat)
  rw [List.intercalate_splitOn k 47]


theorem early_prefix_ext (pat z b : List Nat)
    (h : ∀ i, i < b.length → pat.isPrefixOf ((b ++ pat).drop i) = false) :
    ∀ i, i < b.length → pat.isPrefixOf ((b ++ (pat ++ z)).drop i) = false := by
  intro i hi
  have h1 : b ++ (pat ++ z) = (b ++ pat) ++ z := by rw [List.append_assoc]
  rw [h1, List.drop_append_of_le_length (by simp; omega),
    isPrefixOf_append_of_le pat _ z (by simp [List.length_drop]; omega)]
  exact h i hi

theorem parseS3Url_virtual_format (b k region : List Nat)
    (hb : b ≠ [])
    (hbSlash : (47 : Nat) ∉ b)
    (hrSlash : (47 : Nat) ∉ region)
    (hbEarly : ∀ i, i < b.length → dotS3Dot.isPrefixOf ((b ++ dotS3Dot).drop i) = false) :
    parseS3Url (httpsScheme ++ b ++ dotS3Dot ++ region ++ amazonDot ++ [47] ++ k) =
      .ok (b, k) := by
  obtain ⟨x, btail, rfl⟩ : ∃ x t, b = x :: t := by
    cases b with
    | nil => exact absurd rfl hb
    | cons x t => exact ⟨x, t, rfl⟩
  have hx47 : x ≠ 47 := fun h => hbSlash (by rw [h]; exact List.mem_cons_self _ _)
  have hbt47 : (47 : Nat) ∉ btail := fun h => hbSlash (List.mem_cons_of_mem _ h)
  simp only [List.append_assoc, List.cons_append, List.singleton_append, List.nil_append]
  have hmemHost : ∀ c ∈ x :: (btail ++ (dotS3Dot ++ (region ++ amazonDot))),
      (c != 47) = true := by
    intro c hc
    simp only [List.mem_cons, List.mem_append] at hc
    have hc47 : c ≠ 47 := by
      rcases hc with rfl | hc | hc | hc | hc
      · exact hx47
      · exact fun h => hbt47 (h ▸ hc)
      · simp [dotS3Dot] at hc; omega
      · exact fun h => hrSlash (h ▸ hc)
      · simp [amazonDot] at hc; omega
    simpa using hc47
  have hre : x :: (btail ++ (dotS3Dot ++ (region ++ (amazonDot ++ 47 :: k)))) =
      (x :: (btail ++ (dotS3Dot ++ (region ++ amazonDot)))) ++ 47 :: k := by
    simp [List.append_assoc]
  have hurl : urlParse (httpsScheme ++ x :: (btail ++ (dotS3Dot ++ (region ++ (amazonDot ++ 47 :: k))))) =
      some (x :: (btail ++ (dotS3Dot ++ (region ++ amazonDot))), 47 :: k) := by
    unfold urlParse
    rw [if_pos (List.isPrefixOf_iff_prefix.mpr (List.prefix_append _ _))]
    have hd8 : (httpsScheme ++ x :: (btail ++ (dotS3Dot ++ (region ++ (amazonDot ++ 47 :: k))))).drop 8 =
        x :: (btail ++ (dotS3Dot ++ (region ++ (amazonDot ++ 47 :: k)))) := List.drop_left' rfl
    rw [hd8]
    have htw : (x :: (btail ++ (dotS3Dot ++ (region ++ (amazonDot ++ 47 :: k))))).takeWhile (fun c => c != 47) =
        x :: (btail ++ (dotS3Dot ++ (region ++ amazonDot))) := by
      rw [hre]
      exact takeWhile_append_sep _ _ 47 k hmemHost rfl
    rw [htw]
    show some (x :: (btail ++ (dotS3Dot ++ (region ++ amazonDot))),
        (x :: (btail ++ (dotS3Dot ++ (region ++ (amazonDot ++ 47 :: k))))).drop
          (x :: (btail ++ (dotS3Dot ++ (region ++ amazonDot)))).length) =
      some (x :: (btail ++ (dotS3Dot ++ (region ++ amazonDot))), 47 :: k)
    rw [hre, List.drop_left]
  have hc1 : s3Scheme.isPrefixOf
      (httpsScheme ++ x :: (btail ++ (dotS3Dot ++ (region ++ (amazonDot ++ 47 :: k))))) = false := rfl
  have hinc1 : jsIncludes dotS3Dot
      (httpsScheme ++ x :: (btail ++ (dotS3Dot ++ (region ++ (amazonDot ++ 47 :: k))))) = true := by
    apply jsIncludes_of_isInfix
    exact ⟨httpsScheme ++ x :: btail, region ++ (amazonDot ++ 47 :: k), by simp [List.append_assoc]⟩
  have hinc2 : jsIncludes amazonDot
      (httpsScheme ++ x :: (btail ++ (dotS3Dot ++ (region ++ (amazonDot ++ 47 :: k))))) = true := by
    apply jsIncludes_of_isInfix
    exact ⟨httpsScheme ++ x :: btail ++ dotS3Dot ++ region, 47 :: k, by simp [List.append_assoc]⟩
  unfold parseS3Url
  rw [if_neg (by simp [hc1]), if_pos (by rw [hinc1, hinc2]; rfl), hurl]
  show Except.ok (takeBeforeInfix dotS3Dot (x :: (btail ++ (dotS3Dot ++ (region ++ amazonDot)))),
      (47 :: k).drop 1) = Except.ok ((x :: btail, k) : List Nat × List Nat)
  have hhost : x :: (btail ++ (dotS3Dot ++ (region ++ amazonDot))) =
      (x :: btail) ++ (dotS3Dot ++ (region ++ amazonDot)) := by
    simp [List.append_assoc]
  rw [hhost, takeBeforeInfix_eq dotS3Dot (region ++ amazonDot) (x :: btail)
    (early_prefix_ext dotS3Dot (region ++ amazonDot) (x :: btail) hbEarly)]
  rfl

theorem parseS3Url_path_format (b k region : List Nat)
    (hbSlash : (47 : Nat) ∉ b)
    (hrSlash : (47 : Nat) ∉ region)
    (hNoS3 : jsIncludes dotS3Dot
      (httpsScheme ++ s3Dot ++ region ++ amazonDot ++ [47] ++ b ++ [47] ++ k) = false) :
    parseS3Url (httpsScheme ++ s3Dot ++ region ++ amazonDot ++ [47] ++ b ++ [47] ++ k) =
      .ok (b, k) := by
  simp only [List.append_assoc, List.cons_append, List.singleton_append, List.nil_append] at hNoS3 ⊢
  have hmemHost : ∀ c ∈ s3Dot ++ (region ++ amazonDot), (c != 47) = true := by
    intro c hc
    simp only [List.mem_append] at hc
    have hc47 : c ≠ 47 := by
      rcases hc with hc | hc | hc
      · simp [s3Dot] at hc; omega
      · exact fun h => hrSlash (h ▸ hc)
      · simp [amazonDot] at hc; omega
    simpa using hc47
  have hre : s3Dot ++ (region ++ (amazonDot ++ 47 :: (b ++ 47 :: k))) =
      (s3Dot ++ (region ++ amazonDot)) ++ 47 :: (b ++ 47 :: k) := by
    simp [List.append_assoc]
  have hurl : urlParse (httpsScheme ++ (s3Dot ++ (region ++ (amazonDot ++ 47 :: (b ++ 47 :: k))))) =
      some (s3Dot ++ (region ++ amazonDot), 47 :: (b ++ 47 :: k)) := by
    unfold urlParse
    rw [if_pos (List.isPrefixOf_iff_prefix.mpr (List.prefix_append _ _))]
    have hd8 : (httpsScheme ++ (s3Dot ++ (region ++ (amazonDot ++ 47 :: (b ++ 47 :: k))))).drop 8 =
        s3Dot ++ (region ++ (amazonDot ++ 47 :: (b ++ 47 :: k))) := List.drop_left' rfl
    rw [hd8]
    have htw : (s3Dot ++ (region ++ (amazonDot ++ 47 :: (b ++ 47 :: k)))).takeWhile (fun c => c != 47) =
        s3Dot ++ (region ++ amazonDot) := by
      rw [hre]
      exact takeWhile_append_sep _ _ 47 (b ++ 47 :: k) hmemHost rfl
    rw [htw]
    show some (s3Dot ++ (region ++ amazonDot),
        (s3Dot ++ (region ++ (amazonDot ++ 47 :: (b ++ 47 :: k)))).drop
          (s3Dot ++ (region ++ amazonDot)).length) =
      some (s3Dot ++ (region ++ amazonDot), 47 :: (b ++ 47 :: k))
    rw [hre, List.drop_left]
  have hc1 : s3Scheme.isPrefixOf
      (httpsScheme ++ (s3Dot ++ (region ++ (amazonDot ++ 47 :: (b ++ 47 :: k))))) = false := rfl
  have hinc1 : jsIncludes s3Dot
      (httpsScheme ++ (s3Dot ++ (region ++ (amazonDot ++ 47 :: (b ++ 47 :: k))))) = true := by
    apply jsIncludes_of_isInfix
    exact ⟨httpsScheme, region ++ (amazonDot ++ 47 :: (b ++ 47 :: k)), by simp [List.append_assoc]⟩
  have hinc2 : jsIncludes amazonDot
      (httpsScheme ++ (s3Dot ++ (region ++ (amazonDot ++ 47 :: (b ++ 47 :: k))))) = true := by
    apply jsIncludes_of_isInfix
    exact ⟨httpsScheme ++ s3Dot ++ region, 47 :: (b ++ 47 :: k), by simp [List.append_assoc]⟩
  have hsplitK : (b ++ 47 :: k).splitOn 47 = b :: k.splitOn 47 := by
    show (b ++ 47 :: k).splitOnP (fun c => c == 47) = b :: k.splitOnP (fun c => c == 47)
    exact List.splitOnP_first (fun c => c == 47) b
      (fun y hy hbeq => hbSlash (by rwa [show y = 47 from by simpa using hbeq] at hy))
      47 (by simp) k
  unfold parseS3Url
  rw [if_neg (by simp [hc1]), if_neg (by simp [hNoS3]), if_pos (by rw [hinc1, hinc2]; rfl), hurl]
  have hd1 : List.drop 1 (47 :: (b ++ 47 :: k)) = b ++ 47 :: k := rfl
  show (match List.splitOn 47 (List.drop 1 (47 :: (b ++ 47 :: k))) with
      | [] => (Except.error AppError.invalidReferenceError : Except AppError (List Nat × List Nat))
      | bucket :: keyParts => Except.ok (bucket, List.intercalate [47] keyParts)) =
    Except.ok (b, k)
  rw [hd1, hsplitK]
  show Except.ok (b, List.intercalate [47] (k.splitOn 47)) =
    Except.ok ((b, k) : List Nat × List Nat)
  rw [List.intercalate_splitOn k 47]

/-- C8 (amended).  The three accepted storage-reference formats for the
same bucket/key pair all resolve to the identical `{bucket, key}` pair,
for every bucket `b`, key `k` and region on which the parser's format
dispatch is unambiguous: the bucket is nonempty and slash-free, the
region is slash-free, no early `".s3."` occurrence precedes the
virtual-host separator, and — decisively — the path-style URL does not
contain `".s3."` anywhere.  (Without that last condition the claim is
false: a key containing `".s3."` sends the path-style URL into the
virtual-host branch, see the counterexample.)  The two tameness
hypotheses restrict the statement to references on which the modelled
`new URL` split is exact (no percent-encoding, no `.`/`..` segment
normalisation). -/
theorem parseS3Url_three_formats_agree (b k region : List Nat)
    (hb : b ≠ [])
    (hbSlash : (47 : Nat) ∉ b)
    (hrSlash : (47 : Nat) ∉ region)
    (hbEarly : ∀ i, i < b.length → dotS3Dot.isPrefixOf ((b ++ dotS3Dot).drop i) = false)
    (hNoS3 : jsIncludes dotS3Dot
      (httpsScheme ++ s3Dot ++ region ++ amazonDot ++ [47] ++ b ++ [47] ++ k) = false)
    (_hTame : ∀ c ∈ b ++ region ++ k, urlTameChar c = true)
    (_hSegs : ∀ seg ∈ k.splitOn 47, seg ≠ [46] ∧ seg ≠ [46, 46]) :
    parseS3Url (s3Scheme ++ b ++ [47] ++ k) = .ok (b, k) ∧
    parseS3Url (httpsScheme ++ b ++ dotS3Dot ++ region ++ amazonDot ++ [47] ++ k) =
      .ok (b, k) ∧
    parseS3Url (httpsScheme ++ s3Dot ++ region ++ amazonDot ++ [47] ++ b ++ [47] ++ k) =
      .ok (b, k) :=
  ⟨parseS3Url_s3_format b k hbSlash,
   parseS3Url_virtual_format b k region hb hbSlash hrSlash hbEarly,
   parseS3Url_path_format b k region hbSlash hrSlash hNoS3⟩

/-- C8 witness: the three formats agree at bucket `"b"`, key
`"evaluations/x/file.pdf"`, region `"us-east-1"`. -/
theorem parseS3Url_three_formats_agree_witness :
    ((uStr "b" : List Nat) ≠ [] ∧ (47 : Nat) ∉ uStr "b" ∧ (47 : Nat) ∉ uStr "us-east-1" ∧
      (∀ i, i < (uStr "b").length →
        dotS3Dot.isPrefixOf ((uStr "b" ++ dotS3Dot).drop i) = false) ∧
      jsIncludes dotS3Dot (httpsScheme ++ s3Dot ++ uStr "us-east-1" ++ amazonDot ++ [47] ++
        uStr "b" ++ [47] ++ uStr "evaluations/x/file.pdf") = false ∧
      (∀ c ∈ uStr "b" ++ uStr "us-east-1" ++ uStr "evaluations/x/file.pdf",
        urlTameChar c = true) ∧
      (∀ seg ∈ (uStr "evaluations/x/file.pdf").splitOn 47, seg ≠ [46] ∧ seg ≠ [46, 46])) ∧
    (parseS3Url (s3Scheme ++ uStr "b" ++ [47] ++ uStr "evaluations/x/file.pdf") =
        .ok (uStr "b", uStr "evaluations/x/file.pdf") ∧
      parseS3Url (httpsScheme ++ uStr "b" ++ dotS3Dot ++ uStr "us-east-1" ++ amazonDot ++
          [47] ++ uStr "evaluations/x/file.pdf") =
        .ok (uStr "b", uStr "evaluations/x/file.pdf") ∧
      parseS3Url (httpsScheme ++ s3Dot ++ uStr "us-east-1" ++ amazonDot ++ [47] ++
          uStr "b" ++ [47] ++ uStr "evaluations/x/file.pdf") =
        .ok (uStr "b", uStr "evaluations/x/file.pdf")) :=
  ⟨⟨by decide, by decide, by decide, by decide, by decide, by decide, by decide⟩,
   parseS3Url_three_formats_agree (uStr "b") (uStr "evaluations/x/file.pdf")
     (uStr "us-east-1") (by decide) (by decide) (by decide) (by decide) (by decide)
     (by decide) (by decide)⟩

/-- C8 counterexample: for bucket `"b"`, key `"x.s3.y"`, region
`"us-east-1"`, the scheme-prefixed form resolves to
`{bucket: "b", key: "x.s3.y"}` but the path-style HTTPS form — because
the key's `".s3."` substring routes the URL into the virtual-host
branch — resolves to `{bucket: "s3.us-east-1.amazonaws.com",
key: "b/x.s3.y"}`, a different pair. -/
theorem parseS3Url_formats_disagree :
    parseS3Url (uStr "s3://b/x.s3.y") = .ok (uStr "b", uStr "x.s3.y") ∧
    parseS3Url (uStr "https://s3.us-east-1.amazonaws.com/b/x.s3.y") =
      .ok (uStr "s3.us-east-1.amazonaws.com", uStr "b/x.s3.y") ∧
    (uStr "s3.us-east-1.amazonaws.com", uStr "b/x.s3.y") ≠
      ((uStr "b", uStr "x.s3.y") : List Nat × List Nat) :=
  ⟨rfl, rfl, by decide⟩


theorem jsParseFloat_five : (jsParseFloat [53]).getD 0 = (5 : ℚ) := rfl

set_option maxRecDepth 20000 in
/-- C9.  `calculateMaxScoreFromContext` scans the assembled rubric
context for all `Puntaje máximo: N` occurrences (the source's rendering
of "max score: N") and returns their sum, or the default 20 when there
is none: the context assembled for a rubric whose two items carry max
score 5 yields 10; the context of a rubric with no items yields 20; and
in general the result is the sum of the parsed occurrences when at
least one exists, else 20. -/
theorem calculateMaxScore_sums_or_default :
    calculateMaxScoreFromContext (prepareRubricContext envNoCollab [rubricTwoFives]) = 10 ∧
    calculateMaxScoreFromContext (prepareRubricContext envNoCollab [rubricNoItems]) = 20 ∧
    ∀ ctx : List Nat,
      calculateMaxScoreFromContext ctx =
        if scanMaxScores ctx = [] then 20
        else ((scanMaxScores ctx).map (fun s => (jsParseFloat s).getD 0)).sum := by
  refine ⟨?_, ?_, fun ctx => rfl⟩
  · have hscan : scanMaxScores (prepareRubricContext envNoCollab [rubricTwoFives]) =
        [[53], [53]] := by decide
    unfold calculateMaxScoreFromContext
    rw [hscan, if_neg (by simp)]
    norm_num [jsParseFloat_five]
  · have hscan : scanMaxScores (prepareRubricContext envNoCollab [rubricNoItems]) = [] := by
      decide
    unfold calculateMaxScoreFromContext
    rw [hscan, if_pos rfl]

/-- C2.  When the referenced evaluation does not exist the run fails
with the not-found error, the failure is surfaced to the caller, and
the database is untouched — in particular no `Analysis` record has been
created — and no event has happened. -/
theorem analyzeEvaluation_notFound (env : Env) (db : DB)
    (hnone : env.findEvaluation = none) :
    analyzeEvaluation env db = (.error .notFoundError, db, []) := by
  unfold analyzeEvaluation
  rw [hnone]

/-- C2 witness: the not-found theorem at a concrete environment whose
lookup finds nothing. -/
theorem analyzeEvaluation_notFound_witness :
    envNoCollab.findEvaluation = none ∧
    analyzeEvaluation envNoCollab emptyDB = (.error .notFoundError, emptyDB, []) :=
  ⟨rfl, analyzeEvaluation_notFound envNoCollab emptyDB rfl⟩


theorem analyzeGroup_spec (env : Env) (ev : EvaluationRec) (aid : Nat) (db : DB)
    (g : GroupRec) :
    (analyzeGroup env ev (prepareRubricContext env ev.rubrics) aid db g).2 =
      groupAttemptOk env ev g ∧
    (analyzeGroup env ev (prepareRubricContext env ev.rubrics) aid db g).1.analyses =
      db.analyses ∧
    ((analyzeGroup env ev (prepareRubricContext env ev.rubrics) aid db g).1.results.filter
        (fun r => r.analysisId == aid)).length =
      (db.results.filter (fun r => r.analysisId == aid)).length +
        (if groupAttemptOk env ev g then 1 else 0) ∧
    ∀ r ∈ (analyzeGroup env ev (prepareRubricContext env ev.rubrics) aid db g).1.recommendations,
      r ∈ db.recommendations ∨
        (r.analysisId = aid ∧ r.groupId = g.id ∧ groupAttemptOk env ev g = true) := by
  rcases hsub : g.submissions with _ | ⟨latest, rest⟩
  · simp only [analyzeGroup, groupAttemptOk, hsub]
    exact ⟨trivial, trivial, by simp, fun r hr => Or.inl hr⟩
  · rcases hex : env.extractTextFromS3Url latest.fileUrl with e | pdfText
    · simp only [analyzeGroup, groupAttemptOk, hsub, hex]
      exact ⟨trivial, trivial, by simp, fun r hr => Or.inl hr⟩
    · rcases hai : env.analyzeAI g.code (g.name.getD g.code) (cleanText pdfText)
          (prepareRubricContext env ev.rubrics) ev.title with e | result
      · simp only [analyzeGroup, groupAttemptOk, hsub, hex, hai]
        exact ⟨trivial, trivial, by simp, fun r hr => Or.inl hr⟩
      · simp only [analyzeGroup, groupAttemptOk, hsub, hex, hai, saveAnalysisResults]
        refine ⟨trivial, trivial, ?_, ?_⟩
        · rw [List.filter_append]
          simp
        · intro r hr
          rcases List.mem_append.mp hr with hr | hr
          · exact Or.inl hr
          · obtain ⟨rec, _, hrec⟩ := List.mem_map.mp hr
            refine Or.inr ⟨?_, ?_, trivial⟩
            · rw [← hrec]
            · rw [← hrec]

theorem runGroups_spec (env : Env) (ev : EvaluationRec) (aid : Nat) :
    ∀ (gs : List GroupRec) (db : DB),
      (runGroups env ev (prepareRubricContext env ev.rubrics) aid gs db).2 =
        gs.map (fun g => AnalysisEvent.groupSettled g.id (groupAttemptOk env ev g)) ∧
      (runGroups env ev (prepareRubricContext env ev.rubrics) aid gs db).1.analyses =
        db.analyses ∧
      ((runGroups env ev (prepareRubricContext env ev.rubrics) aid gs db).1.results.filter
          (fun r => r.analysisId == aid)).length =
        (db.results.filter (fun r => r.analysisId == aid)).length +
          (gs.filter (groupAttemptOk env ev)).length ∧
      ∀ r ∈ (runGroups env ev (prepareRubricContext env ev.rubrics) aid gs db).1.recommendations,
        r ∈ db.recommendations ∨
          (r.analysisId = aid ∧ ∃ g ∈ gs, groupAttemptOk env ev g = true ∧ r.groupId = g.id) := by
  intro gs
  induction gs with
  | nil => intro db; exact ⟨rfl, rfl, by simp [runGroups], fun r hr => Or.inl hr⟩
  | cons g gs ih =>
    intro db
    obtain ⟨h2, hA, hR, hRec⟩ := analyzeGroup_spec env ev aid db g
    obtain ⟨ih2, ihA, ihR, ihRec⟩ :=
      ih (analyzeGroup env ev (prepareRubricContext env ev.rubrics) aid db g).1
    refine ⟨?_, ?_, ?_, ?_⟩
    · show AnalysisEvent.groupSettled g.id
          (analyzeGroup env ev (prepareRubricContext env ev.rubrics) aid db g).2 ::
        (runGroups env ev (prepareRubricContext env ev.rubrics) aid gs
          (analyzeGroup env ev (prepareRubricContext env ev.rubrics) aid db g).1).2 = _
      rw [h2, ih2, List.map_cons]
    · show (runGroups env ev (prepareRubricContext env ev.rubrics) aid gs
          (analyzeGroup env ev (prepareRubricContext env ev.rubrics) aid db g).1).1.analyses = _
      rw [ihA, hA]
    · show ((runGroups env ev (prepareRubricContext env ev.rubrics) aid gs
          (analyzeGroup env ev (prepareRubricContext env ev.rubrics) aid db g).1).1.results.filter
            (fun r => r.analysisId == aid)).length = _
      rw [ihR, hR, List.filter_cons]
      by_cases hg : groupAttemptOk env ev g = true
      · rw [if_pos (by simpa using hg), if_pos hg]
        simp
        omega
      · rw [if_neg (by simpa using hg), if_neg hg]
        omega
    · intro r hr
      replace hr : r ∈ (runGroups env ev (prepareRubricContext env ev.rubrics) aid gs
          (analyzeGroup env ev (prepareRubricContext env ev.rubrics) aid db g).1).1.recommendations := hr
      rcases ihRec r hr with hr1 | ⟨haid, g1, hg1, hok1, hid1⟩
      · rcases hRec r hr1 with hr2 | ⟨haid, hgid, hok⟩
        · exact Or.inl hr2
        · exact Or.inr ⟨haid, g, List.mem_cons_self g gs, hok, hgid⟩
      · exact Or.inr ⟨haid, g1, List.mem_cons_of_mem g hg1, hok1, hid1⟩

/-- C1.  On an existing evaluation the run completes: the `Analysis`
row's end timestamp is set (COMPLETED) only after every group's
analysis attempt has settled — the trace records one settle event per
group, in order, and the `endedAt` update strictly after all of them;
a group whose attempt throws, and a group with zero submissions, are
skipped and contribute no `AnalysisResult` and no `Recommendation`,
yet the run still returns `{analysisId, message}`. -/
theorem analyzeEvaluation_completes (env : Env) (db : DB) (ev : EvaluationRec)
    (hfind : env.findEvaluation = some ev)
    (hfreshRes : ∀ r ∈ db.results, r.analysisId ≠ env.newAnalysisId)
    (hfreshRec : ∀ r ∈ db.recommendations, r.analysisId ≠ env.newAnalysisId)
    (hnodup : (ev.groups.map GroupRec.id).Nodup) :
    analyzeEvaluationCompletes env ev db := by
  have hEq : analyzeEvaluation env db =
      (.ok ⟨env.newAnalysisId, analysisDoneMessage⟩,
       { (runGroups env ev (prepareRubricContext env ev.rubrics) env.newAnalysisId ev.groups
           { db with analyses := db.analyses ++
             [⟨env.newAnalysisId, analysisEngine, analysisNotes, none⟩] }).1 with
          analyses := (runGroups env ev (prepareRubricContext env ev.rubrics)
            env.newAnalysisId ev.groups
            { db with analyses := db.analyses ++
              [⟨env.newAnalysisId, analysisEngine, analysisNotes, none⟩] }).1.analyses.map
            (fun a => if a.id = env.newAnalysisId
              then { a with endedAt := some env.now } else a) },
       (runGroups env ev (prepareRubricContext env ev.rubrics) env.newAnalysisId ev.groups
         { db with analyses := db.analyses ++
           [⟨env.newAnalysisId, analysisEngine, analysisNotes, none⟩] }).2 ++
         [.analysisEnded]) := by
    unfold analyzeEvaluation
    rw [hfind]
  obtain ⟨h2, hA, hR, hRec⟩ := runGroups_spec env ev env.newAnalysisId ev.groups
    { db with analyses := db.analyses ++
      [⟨env.newAnalysisId, analysisEngine, analysisNotes, none⟩] }
  unfold analyzeEvaluationCompletes
  rw [hEq]
  refine ⟨rfl, ?_, ?_, ?_, ?_⟩
  · refine ⟨⟨env.newAnalysisId, analysisEngine, analysisNotes, some env.now⟩, ?_, rfl, rfl⟩
    show _ ∈ (runGroups env ev (prepareRubricContext env ev.rubrics) env.newAnalysisId
      ev.groups _).1.analyses.map _
    rw [hA, List.map_append]
    apply List.mem_append_right
    simp
  · show (runGroups env ev (prepareRubricContext env ev.rubrics) env.newAnalysisId
      ev.groups _).2 ++ [AnalysisEvent.analysisEnded] = _
    rw [h2]
  · show ((runGroups env ev (prepareRubricContext env ev.rubrics) env.newAnalysisId
      ev.groups _).1.results.filter (fun r => r.analysisId == env.newAnalysisId)).length = _
    rw [hR]
    have hnil : db.results.filter (fun r => r.analysisId == env.newAnalysisId) = [] :=
      List.filter_eq_nil_iff.mpr (fun r hr => by simpa using hfreshRes r hr)
    show (db.results.filter (fun r => r.analysisId == env.newAnalysisId)).length +
        (ev.groups.filter (groupAttemptOk env ev)).length = _
    rw [hnil]
    simp
  · intro g hg hnotok r hr haid
    replace hr : r ∈ (runGroups env ev (prepareRubricContext env ev.rubrics)
      env.newAnalysisId ev.groups
      { db with analyses := db.analyses ++
        [⟨env.newAnalysisId, analysisEngine, analysisNotes, none⟩] }).1.recommendations := hr
    rcases hRec r hr with hr1 | ⟨_, g1, hg1, hok1, hid1⟩
    · exact absurd haid (hfreshRec r hr1)
    · intro hgid
      have hsame : g1 = g :=
        List.inj_on_of_nodup_map hnodup hg1 hg (by rw [hid1] at hgid; exact hgid)
      rw [hsame, hnotok] at hok1
      exact absurd hok1 (by simp)

/-- C1 witness: the completion theorem at a concrete evaluation with
one submission-less group and one group whose extraction fails — both
are skipped, the run still completes. -/
theorem analyzeEvaluation_completes_witness :
    (envWithEv.findEvaluation = some evTwoGroups ∧
      (∀ r ∈ emptyDB.results, r.analysisId ≠ envWithEv.newAnalysisId) ∧
      (∀ r ∈ emptyDB.recommendations, r.analysisId ≠ envWithEv.newAnalysisId) ∧
      (evTwoGroups.groups.map GroupRec.id).Nodup) ∧
    analyzeEvaluationCompletes envWithEv evTwoGroups emptyDB :=
  ⟨⟨rfl, by simp [emptyDB], by simp [emptyDB], by decide⟩,
   analyzeEvaluation_completes envWithEv emptyDB evTwoGroups rfl (by simp [emptyDB])
     (by simp [emptyDB]) (by decide)⟩

end HackEdu
